import Mathlib

/-!
# Verification of the nickname-based role-verification bot

Shallow embedding of `src/bot.py`: the nickname→role registry with its
JSON persistence (`load_database`, `save_database`), the admin
registration command (`add_nickname`), and the direct-message reply
handler (`on_message`) together with the pending-verification map.

Python dictionaries are modelled as association lists preserving
insertion order (as Python dicts do); Discord objects are modelled by
the fields the code reads (role rank for hierarchy comparison, member
presence, role resolution); the outcome of the platform `add_roles`
call is an input of the model.
-/

set_option autoImplicit false

namespace Bot

/-! ## Association lists modelling Python dicts -/

/-- First-match lookup, modelling Python `d.get(k)` / `d[k]`. -/
def lookupA {α β : Type} [DecidableEq α] (k : α) : List (α × β) → Option β
  | [] => none
  | (k', v) :: rest => if k' = k then some v else lookupA k rest

/-- Key removal, modelling Python `del d[k]`. -/
def eraseA {α β : Type} [DecidableEq α] (k : α) : List (α × β) → List (α × β)
  | [] => []
  | (k', v) :: rest => if k' = k then eraseA k rest else (k', v) :: eraseA k rest

/-- Assignment `d[k] = v`: overwrite in place when the key exists
(keeping its position, as Python dicts do), otherwise append. -/
def insertA {α β : Type} [DecidableEq α] (k : α) (v : β) : List (α × β) → List (α × β)
  | [] => [(k, v)]
  | (k', v') :: rest => if k' = k then (k, v) :: rest else (k', v') :: insertA k v rest

/-- In-place update of the value stored at `k` (first occurrence),
modelling Python `d[k].append(...)`-style mutation. -/
def modifyA {α β : Type} [DecidableEq α] (k : α) (f : β → β) : List (α × β) → List (α × β)
  | [] => []
  | (k', v) :: rest => if k' = k then (k', f v) :: rest else (k', v) :: modifyA k f rest

/-! ## Data model -/

/-- The registry: `nickname_role_db : Dict[str, List[int]]`. -/
abbrev Registry := List (String × List Nat)

/-- The tracker: `pending_verifications : Dict[int, int]` mapping user id
to guild id. -/
abbrev Pending := List (Nat × Nat)

/-- A parsed JSON value, as `json.load` produces it. `jnum` models an
integer number (the only numeric shape the registry file ever holds);
`jother` stands for any other value (float, etc.) — none of those pass
the element filter in `load_database`, which is all the code observes. -/
inductive JVal : Type
  | jnull : JVal
  | jbool : Bool → JVal
  | jnum : Int → JVal
  | jstr : String → JVal
  | jarr : List JVal → JVal
  | jobj : List (String × JVal) → JVal
  | jother : JVal

/-- State of the backing file `nickname_roles.json` as seen by
`load_database`: absent, unreadable/unparsable (raises
`JSONDecodeError`/`IOError`), or parsed to a JSON value. -/
inductive FileState : Type
  | missing : FileState
  | unreadable : FileState
  | parsed : JVal → FileState

/-- An exception escaping `load_database` uncaught — the `except`
clause catches only `JSONDecodeError` and `IOError`: `.items()` on a
non-dict value raises `AttributeError`, and `int(r)` on a string that
passed `str.isdigit` but is not a plain decimal numeral within the
interpreter's conversion limit raises `ValueError`. -/
inductive LoadError : Type
  | attributeError : LoadError
  | valueError : LoadError
deriving DecidableEq

/-- The decimal-digit value of a character (Unicode category Nd), for
the blocks this model covers: the ASCII digits and the Arabic-Indic
digits U+0660–U+0669. Other Nd blocks behave the same way in Python
(accepted by both `isdigit` and `int`) but are outside the table. -/
def pyDecDigit (c : Char) : Option Nat :=
  if 0x30 ≤ c.toNat ∧ c.toNat ≤ 0x39 then some (c.toNat - 0x30)
  else if 0x660 ≤ c.toNat ∧ c.toNat ≤ 0x669 then some (c.toNat - 0x660)
  else none

/-- Python `str.isdigit` per character: true for decimal digits and for
digit-only characters (Numeric_Type=Digit) that `int()` nevertheless
rejects — here the Latin-1 superscripts U+00B2/U+00B3/U+00B9 and the
superscript/subscript digits U+2070, U+2074–U+2079, U+2080–U+2089.
Other digit-only characters behave the same way but are outside the
table. -/
def pyIsDigitChar (c : Char) : Bool :=
  (pyDecDigit c).isSome || c.toNat == 0xB2 || c.toNat == 0xB3 || c.toNat == 0xB9 ||
    c.toNat == 0x2070 || (0x2074 ≤ c.toNat && c.toNat ≤ 0x2079) ||
    (0x2080 ≤ c.toNat && c.toNat ≤ 0x2089)

/-- Python `s.isdigit()`: non-empty and every character a digit. -/
def pyIsDigitString (s : String) : Bool :=
  !s.data.isEmpty && s.data.all pyIsDigitChar

/-- The value of an all-decimal digit string, for Python `int(s)`. -/
def pyStrToNat (s : String) : Nat :=
  s.data.foldl (fun acc c => acc * 10 + ((pyDecDigit c).getD 0)) 0

/-- `sys.int_info.default_max_str_digits`: CPython (3.11+) refuses
string–integer conversion beyond this many digits with `ValueError`. -/
def default_max_str_digits : Nat := 4300

/-- One element `r` of a stored role list, per
`isinstance(r, (int, str)) and str(r).isdigit()` followed by `int(r)`:
`.ok (some n)` keeps the converted value, `.ok none` filters the
element out, `.error .valueError` models an uncaught exception from
`int(r)` — a string of digit characters that are not all decimal
digits (e.g. `"²"`), or one longer than the conversion limit. A
negative int fails `isdigit` (its string starts with a minus sign); a
bool stringifies to `True`/`False`; floats are not `int`/`str`. A
`jnum` never errs here: a stored numeral beyond the conversion limit
would already make `json.load` itself raise, so no parsed value
contains one. -/
def coerceElem : JVal → Except LoadError (Option Nat)
  | .jnum n => if 0 ≤ n then .ok (some n.toNat) else .ok none
  | .jstr s =>
    if pyIsDigitString s then
      if s.data.all (fun c => (pyDecDigit c).isSome) ∧
          s.data.length ≤ default_max_str_digits then
        .ok (some (pyStrToNat s))
      else .error .valueError
    else .ok none
  | _ => .ok none

/-- The list comprehension of `load_database`, element by element in
order; the first raising element aborts the whole load. -/
def coerceList : List JVal → Except LoadError (List Nat)
  | [] => .ok []
  | r :: rest =>
    match coerceElem r with
    | .error e => .error e
    | .ok none => coerceList rest
    | .ok (some n) =>
      match coerceList rest with
      | .error e => .error e
      | .ok ns => .ok (n :: ns)

/-- A stored per-key value: a list is filtered and converted
element-wise (which can raise), anything else is coerced to the empty
list (the `else` branch in `load_database`). -/
def coerceRoles : JVal → Except LoadError (List Nat)
  | .jarr rs => coerceList rs
  | _ => .ok []

/-- The `for nickname, roles in … .items()` loop of `load_database`,
in dict order; the first raising value aborts the load. -/
def coerceEntries : List (String × JVal) → Except LoadError Registry
  | [] => .ok []
  | (k, v) :: rest =>
    match coerceRoles v with
    | .error e => .error e
    | .ok ids =>
      match coerceEntries rest with
      | .error e => .error e
      | .ok tail => .ok ((k, ids) :: tail)

/-- `load_database`: missing file → empty registry; unreadable or
unparsable content → logged, empty registry; a JSON object → each
value coerced in turn (an element rejected by `int()` escapes as an
uncaught `ValueError`); any other parsed JSON value → uncaught
`AttributeError` at `.items()`. Duplicate keys in the document are
resolved as `json.load` resolves them (successive dict assignment). -/
def load_database : FileState → Except LoadError Registry
  | .missing => .ok []
  | .unreadable => .ok []
  | .parsed j =>
    match j with
    | .jobj fields =>
      coerceEntries (fields.foldl (fun d kv => insertA kv.1 kv.2 d) [])
    | _ => .error .attributeError

/-- `save_database`: the JSON document `json.dump` writes for a registry. -/
def save_database (db : Registry) : JVal :=
  .jobj (db.map (fun kv => (kv.1, .jarr (kv.2.map (fun r => .jnum (Int.ofNat r))))))

/-- Python `s.strip()`: remove leading and trailing whitespace. Defined
structurally over the character list (Lean's own `String.trim` is not
kernel-reducible), covering the ASCII whitespace characters. -/
def strip (s : String) : String :=
  ⟨List.dropWhile Char.isWhitespace
    (List.reverse (List.dropWhile Char.isWhitespace (List.reverse s.data)))⟩

/-! ## Admin registration command -/

/-- Outcome of `/addnickname`, per the confirmation message sent. -/
inductive AddResult : Type
  | validationError : AddResult
  | added : AddResult
  | updated : AddResult
  | unchanged : AddResult
deriving DecidableEq

/-- `add_nickname(nickname, role)`: returns the outcome, the new
registry, and whether `save_database` was called. -/
def add_nickname (db : Registry) (nickname : String) (role_id : Nat) :
    AddResult × Registry × Bool :=
  let nickname_clean := strip nickname
  if nickname_clean = "" then (.validationError, db, false)
  else
    match lookupA nickname_clean db with
    | some roles =>
      if role_id ∈ roles then (.unchanged, db, false)
      else (.updated, modifyA nickname_clean (fun rs => rs ++ [role_id]) db, true)
    | none => (.added, db ++ [(nickname_clean, [role_id])], true)

/-! ## Reply handler -/

/-- A Discord role, reduced to the fields the handler reads: its name
(for messages) and its position in the role hierarchy. -/
structure Role : Type where
  name : String
  rank : Nat
deriving DecidableEq

/-- A guild, reduced to what the handler queries: role resolution, the
bot's top role rank (`guild.me.top_role`), and member presence. -/
structure Guild : Type where
  getRole : Nat → Option Role
  meTopRank : Nat
  hasMember : Nat → Bool

/-- Result of the platform `member.add_roles` call. -/
inductive AddRolesOutcome : Type
  | success : AddRolesOutcome
  | forbidden : AddRolesOutcome
  | httpError : AddRolesOutcome
  | otherError : AddRolesOutcome
deriving DecidableEq

/-- The platform environment at reply time. -/
structure Env : Type where
  getGuild : Nat → Option Guild
  addRolesOutcome : AddRolesOutcome

/-- An inbound message, reduced to the fields `on_message` reads. -/
structure MessageIn : Type where
  authorBot : Bool
  authorId : Nat
  isDM : Bool
  content : String

/-- Messages the handler sends back over the DM channel, tagged by
content shape. -/
inductive Msg : Type
  | hierarchyBlockedMsg : String → Msg
  | successMsg : List String → Msg
  | notFoundNoteMsg : List Nat → Msg
  | forbiddenMsg : Msg
  | httpErrorMsg : Msg
  | unexpectedErrorMsg : Msg
  | notRecognizedMsg : Msg
deriving DecidableEq

/-- The spec's terminal classifications of a processed reply. -/
inductive Classification : Type
  | Success : Classification
  | NotFound : Classification
  | PermissionDenied : Classification
  | TransientFailure : Classification
  | HierarchyBlocked : Classification
deriving DecidableEq

/-- How a call to `on_message` ended. `terminal none` is the branch
where the role loop ran but produced no assignable role and at least
one role id was unresolvable, so no summary classification message is
emitted (lines 203–206 skip it). -/
inductive Outcome : Type
  | notProcessed : Outcome
  | falsyGuildId : Outcome
  | guildNotFound : Outcome
  | memberNotFound : Outcome
  | terminal : Option Classification → Outcome
deriving DecidableEq

/-- Result of the role loop (lines 166–179): `adds` the roles passing
the hierarchy check (`roles_to_add_objects`, with their ids), `notFound`
the ids that did not resolve (`not_found_role_ids`), `blocked` the
resolved roles failing the hierarchy check, each of which had a
permission message sent at detection time. All three keep loop order. -/
structure ScanResult : Type where
  adds : List (Nat × Role)
  notFound : List Nat
  blocked : List (Nat × Role)
deriving DecidableEq

/-- The role loop of `on_message`. -/
def scanRoles (g : Guild) : List Nat → ScanResult
  | [] => ⟨[], [], []⟩
  | rid :: rest =>
    let s := scanRoles g rest
    match g.getRole rid with
    | some role =>
      if role.rank < g.meTopRank then ⟨(rid, role) :: s.adds, s.notFound, s.blocked⟩
      else ⟨s.adds, s.notFound, (rid, role) :: s.blocked⟩
    | none => ⟨s.adds, rid :: s.notFound, s.blocked⟩

/-- Effects of one `on_message` call: the pending map afterwards, the
`add_roles` calls issued (role ids plus audit reason), the DM messages
sent in order, and the outcome. -/
structure ReplyEffects : Type where
  pending : Pending
  calls : List (List Nat × String)
  msgs : List Msg
  outcome : Outcome
deriving DecidableEq

/-- Lines 158–215: lookup of the trimmed nickname and the role
assignment, producing the calls, messages and classification. The
per-blocked-role permission messages are emitted during the loop, hence
precede any summary message. -/
def replyBody (db : Registry) (guild : Guild) (env : Env) (nickname : String) :
    List (List Nat × String) × List Msg × Option Classification :=
  match lookupA nickname db with
  | some ids =>
    if ids = [] then ([], [Msg.notRecognizedMsg], some .NotFound)
    else
      let s := scanRoles guild ids
      let hbMsgs := s.blocked.map (fun p => Msg.hierarchyBlockedMsg p.2.name)
      if s.adds = [] then
        if s.notFound = [] then ([], hbMsgs, some .HierarchyBlocked)
        else ([], hbMsgs, none)
      else
        let call := (s.adds.map Prod.fst, "Verified via nickname: " ++ nickname)
        match env.addRolesOutcome with
        | .success =>
          ([call],
            hbMsgs ++ [Msg.successMsg (s.adds.map (fun p => p.2.name))] ++
              (if s.notFound = [] then [] else [Msg.notFoundNoteMsg s.notFound]),
            some .Success)
        | .forbidden => ([call], hbMsgs ++ [Msg.forbiddenMsg], some .PermissionDenied)
        | .httpError => ([call], hbMsgs ++ [Msg.httpErrorMsg], some .TransientFailure)
        | .otherError => ([call], hbMsgs ++ [Msg.unexpectedErrorMsg], some .TransientFailure)
  | none => ([], [Msg.notRecognizedMsg], some .NotFound)

/-- The `on_message` event handler (lines 124–220). An empty-list guild
id value cannot arise here, but a zero one can (`if not guild_id`);
guild or member resolution failure deletes the pending entry and
returns; otherwise the reply body runs and the pending entry is deleted
as the final step (lines 217–220). -/
def on_message (db : Registry) (pending : Pending) (env : Env) (m : MessageIn) :
    ReplyEffects :=
  if m.authorBot then ⟨pending, [], [], .notProcessed⟩
  else if m.isDM then
    match lookupA m.authorId pending with
    | some guild_id =>
      if guild_id = 0 then ⟨pending, [], [], .falsyGuildId⟩
      else
        match env.getGuild guild_id with
        | none => ⟨eraseA m.authorId pending, [], [], .guildNotFound⟩
        | some guild =>
          if guild.hasMember m.authorId then
            let b := replyBody db guild env (strip m.content)
            ⟨eraseA m.authorId pending, b.1, b.2.1, .terminal b.2.2⟩
          else ⟨eraseA m.authorId pending, [], [], .memberNotFound⟩
    | none => ⟨pending, [], [], .notProcessed⟩
  else ⟨pending, [], [], .notProcessed⟩

/-- `on_member_join` for a non-bot member: overwriting insert into the
pending map (line 97). -/
def on_member_join (pending : Pending) (user_id guild_id : Nat) : Pending :=
  insertA user_id guild_id pending

/-! ## Association-list lemmas -/

@[simp] theorem lookupA_nil {α β : Type} [DecidableEq α] (k : α) :
    lookupA k ([] : List (α × β)) = none := rfl

@[simp] theorem lookupA_cons {α β : Type} [DecidableEq α] (k k' : α) (v : β)
    (l : List (α × β)) :
    lookupA k ((k', v) :: l) = if k' = k then some v else lookupA k l := rfl

@[simp] theorem eraseA_nil {α β : Type} [DecidableEq α] (k : α) :
    eraseA k ([] : List (α × β)) = [] := rfl

@[simp] theorem eraseA_cons {α β : Type} [DecidableEq α] (k k' : α) (v : β)
    (l : List (α × β)) :
    eraseA k ((k', v) :: l) = if k' = k then eraseA k l else (k', v) :: eraseA k l := rfl

@[simp] theorem insertA_nil {α β : Type} [DecidableEq α] (k : α) (v : β) :
    insertA k v ([] : List (α × β)) = [(k, v)] := rfl

@[simp] theorem insertA_cons {α β : Type} [DecidableEq α] (k k' : α) (v v' : β)
    (l : List (α × β)) :
    insertA k v ((k', v') :: l) =
      if k' = k then (k, v) :: l else (k', v') :: insertA k v l := rfl

@[simp] theorem modifyA_nil {α β : Type} [DecidableEq α] (k : α) (f : β → β) :
    modifyA k f ([] : List (α × β)) = [] := rfl

@[simp] theorem modifyA_cons {α β : Type} [DecidableEq α] (k k' : α) (f : β → β) (v : β)
    (l : List (α × β)) :
    modifyA k f ((k', v) :: l) =
      if k' = k then (k', f v) :: l else (k', v) :: modifyA k f l := rfl

theorem lookupA_eraseA_self {α β : Type} [DecidableEq α] (k : α) (l : List (α × β)) :
    lookupA k (eraseA k l) = none := by
  induction l with
  | nil => rfl
  | cons kv rest ih =>
    obtain ⟨k', v⟩ := kv
    by_cases h : k' = k <;> simp [h, ih]

theorem lookupA_mem {α β : Type} [DecidableEq α] {k : α} {v : β} {l : List (α × β)}
    (h : lookupA k l = some v) : (k, v) ∈ l := by
  induction l with
  | nil => cases h
  | cons kv rest ih =>
    obtain ⟨k', v'⟩ := kv
    by_cases hk : k' = k
    · subst hk
      have h' : v' = v := by simpa using h
      simp [h']
    · simp only [lookupA_cons, if_neg hk] at h
      exact List.mem_cons_of_mem _ (ih h)

theorem lookupA_eq_none {α β : Type} [DecidableEq α] {k : α} {l : List (α × β)} :
    lookupA k l = none ↔ k ∉ l.map Prod.fst := by
  induction l with
  | nil => simp
  | cons kv rest ih =>
    obtain ⟨k', v'⟩ := kv
    by_cases hk : k' = k
    · subst hk; simp
    · simp [hk, ih, Ne.symm hk]

theorem lookupA_append_of_none {α β : Type} [DecidableEq α] {k : α} {l₁ : List (α × β)}
    (l₂ : List (α × β)) (h : lookupA k l₁ = none) :
    lookupA k (l₁ ++ l₂) = lookupA k l₂ := by
  induction l₁ with
  | nil => rfl
  | cons kv rest ih =>
    obtain ⟨k', v'⟩ := kv
    by_cases hk : k' = k
    · simp [hk] at h
    · simp only [lookupA_cons, if_neg hk] at h
      simp [hk, ih h]

theorem lookupA_modifyA_self {α β : Type} [DecidableEq α] (k : α) (f : β → β)
    (l : List (α × β)) : lookupA k (modifyA k f l) = (lookupA k l).map f := by
  induction l with
  | nil => rfl
  | cons kv rest ih =>
    obtain ⟨k', v'⟩ := kv
    by_cases hk : k' = k <;> simp [hk, ih]

theorem keys_modifyA {α β : Type} [DecidableEq α] (k : α) (f : β → β) (l : List (α × β)) :
    (modifyA k f l).map Prod.fst = l.map Prod.fst := by
  induction l with
  | nil => rfl
  | cons kv rest ih =>
    obtain ⟨k', v'⟩ := kv
    by_cases hk : k' = k <;> simp [hk, ih]

theorem mem_modifyA {α β : Type} [DecidableEq α] {k : α} {f : β → β} {kv : α × β}
    {l : List (α × β)} (h : kv ∈ modifyA k f l) :
    kv ∈ l ∨ ∃ v, lookupA k l = some v ∧ kv = (k, f v) := by
  induction l with
  | nil => cases h
  | cons hd rest ih =>
    obtain ⟨k', v'⟩ := hd
    by_cases hk : k' = k
    · subst hk
      have h' : kv = (k', f v') ∨ kv ∈ rest := by simpa using h
      rcases h' with h' | h'
      · refine Or.inr ⟨v', ?_, h'⟩
        simp
      · exact Or.inl (List.mem_cons_of_mem _ h')
    · simp only [modifyA_cons, if_neg hk, List.mem_cons] at h
      rcases h with h | h
      · exact Or.inl (by simp [h])
      · rcases ih h with h' | ⟨v, hv, hkv⟩
        · exact Or.inl (List.mem_cons_of_mem _ h')
        · refine Or.inr ⟨v, ?_, hkv⟩
          simp [hk, hv]

theorem insertA_of_none {α β : Type} [DecidableEq α] {k : α} (v : β) {l : List (α × β)}
    (h : lookupA k l = none) : insertA k v l = l ++ [(k, v)] := by
  induction l with
  | nil => rfl
  | cons kv rest ih =>
    obtain ⟨k', v'⟩ := kv
    by_cases hk : k' = k
    · simp [hk] at h
    · simp only [lookupA_cons, if_neg hk] at h
      simp [hk, ih h]

theorem lookupA_map_val {α β γ : Type} [DecidableEq α] (k : α) (g : β → γ)
    (l : List (α × β)) :
    lookupA k (l.map (fun kv => (kv.1, g kv.2))) = (lookupA k l).map g := by
  induction l with
  | nil => rfl
  | cons kv rest ih =>
    obtain ⟨k', v'⟩ := kv
    by_cases hk : k' = k <;> simp [hk, ih]

theorem foldl_insertA_of_nodup {α β : Type} [DecidableEq α] (l acc : List (α × β))
    (hd : ∀ kv ∈ l, lookupA kv.1 acc = none) (h : (l.map Prod.fst).Nodup) :
    l.foldl (fun d kv => insertA kv.1 kv.2 d) acc = acc ++ l := by
  induction l generalizing acc with
  | nil => simp
  | cons kv rest ih =>
    obtain ⟨k, v⟩ := kv
    simp only [List.foldl_cons]
    rw [insertA_of_none v (hd (k, v) (List.mem_cons_self _ _))]
    have hrest : ∀ kv' ∈ rest, lookupA kv'.1 (acc ++ [(k, v)]) = none := by
      intro kv' hkv'
      rw [lookupA_append_of_none _ (hd kv' (List.mem_cons_of_mem _ hkv'))]
      have hne : ¬ k = kv'.1 := by
        simp only [List.map_cons, List.nodup_cons] at h
        intro he
        apply h.1
        rw [he]
        exact List.mem_map_of_mem Prod.fst hkv'
      simp [hne]
    have hnodup : (rest.map Prod.fst).Nodup := by
      simp only [List.map_cons, List.nodup_cons] at h
      exact h.2
    rw [ih (acc ++ [(k, v)]) hrest hnodup]
    simp

theorem mem_insertA {α β : Type} [DecidableEq α] {k : α} {v : β} {kv : α × β}
    {l : List (α × β)} (h : kv ∈ insertA k v l) : kv ∈ l ∨ kv = (k, v) := by
  induction l with
  | nil => exact Or.inr (by simpa using h)
  | cons hd rest ih =>
    obtain ⟨k', v'⟩ := hd
    by_cases hk : k' = k
    · subst hk
      have h' : kv = (k', v) ∨ kv ∈ rest := by simpa using h
      rcases h' with h' | h'
      · exact Or.inr h'
      · exact Or.inl (List.mem_cons_of_mem _ h')
    · have h' : kv = (k', v') ∨ kv ∈ insertA k v rest := by simpa [hk] using h
      rcases h' with h' | h'
      · exact Or.inl (by simp [h'])
      · rcases ih h' with h'' | h''
        · exact Or.inl (List.mem_cons_of_mem _ h'')
        · exact Or.inr h''

theorem mem_foldl_insertA {α β : Type} [DecidableEq α] {l : List (α × β)}
    {acc : List (α × β)} {kv : α × β}
    (h : kv ∈ l.foldl (fun d kv => insertA kv.1 kv.2 d) acc) : kv ∈ acc ∨ kv ∈ l := by
  induction l generalizing acc with
  | nil => exact Or.inl (by simpa using h)
  | cons hd rest ih =>
    rw [List.foldl_cons] at h
    rcases ih h with h' | h'
    · rcases mem_insertA h' with h'' | h''
      · exact Or.inl h''
      · right
        rw [h'']
        exact List.mem_cons_self _ _
    · exact Or.inr (List.mem_cons_of_mem _ h')

/-! ## Shape of the handler's effect on the pending map -/

theorem on_message_shape (db : Registry) (pending : Pending) (env : Env) (m : MessageIn) :
    ((on_message db pending env m).pending = pending ∧
      ((on_message db pending env m).outcome = .notProcessed ∨
        (on_message db pending env m).outcome = .falsyGuildId)) ∨
    (on_message db pending env m).pending = eraseA m.authorId pending := by
  unfold on_message
  split
  · exact Or.inl ⟨rfl, Or.inl rfl⟩
  split
  · split
    · split
      · exact Or.inl ⟨rfl, Or.inr rfl⟩
      split
      · exact Or.inr rfl
      split
      · exact Or.inr rfl
      · exact Or.inr rfl
    · exact Or.inl ⟨rfl, Or.inl rfl⟩
  · exact Or.inl ⟨rfl, Or.inl rfl⟩

/-! ## Concrete fixtures used by witnesses and counterexamples -/

/-- Role 10 from the spec's Falcon example: senior to the bot. -/
def roleSenior : Role := ⟨"Senior", 7⟩

/-- Role 20 from the spec's Falcon example: below the bot. -/
def roleJunior : Role := ⟨"Junior", 2⟩

/-- A guild holding roles 10 (senior) and 20 (junior), with the bot's
top role at rank 5 and user 1 as a member. -/
def testGuild : Guild :=
  ⟨fun rid => if rid = 10 then some roleSenior else if rid = 20 then some roleJunior else none,
    5, fun u => u == 1⟩

/-- An environment resolving guild 7 to `testGuild`, with the
`add_roles` call succeeding. -/
def testEnv : Env := ⟨fun g => if g = 7 then some testGuild else none, .success⟩

/-- A non-bot DM from user 1. -/
def testMsg (content : String) : MessageIn := ⟨false, 1, true, content⟩

/-! ## Claims -/

/-- C1: whenever the reply handler processes a DM from a pending user to
a terminal classification (Success, NotFound, PermissionDenied,
TransientFailure or HierarchyBlocked), the pending entry for that user
is removed as the final step, so peeking the tracker for the author's id
afterwards returns absent. -/
theorem C1_terminal_resolves_pending (db : Registry) (pending : Pending) (env : Env)
    (m : MessageIn) (c : Classification)
    (h : (on_message db pending env m).outcome = .terminal (some c)) :
    lookupA m.authorId (on_message db pending env m).pending = none := by
  rcases on_message_shape db pending env m with ⟨hp, ho | ho⟩ | hp
  · rw [h] at ho; cases ho
  · rw [h] at ho; cases ho
  · rw [hp]; exact lookupA_eraseA_self _ _

/-- Witness for C1: a reply from pending user 1 with an unregistered
nickname is processed to NotFound and the pending entry is gone. -/
theorem C1_witness :
    lookupA 1 (on_message [] [(1, 7)] testEnv (testMsg "x")).pending = none :=
  C1_terminal_resolves_pending [] [(1, 7)] testEnv (testMsg "x") .NotFound (by decide)

/-- C2 counterexample: with registry entry `"Ghost" → [99]` where grant
99 does not resolve in the guild, the processed reply sends no message
at all — in particular no "not recognized" message — refuting the
claim's final conjunct (the other conjuncts do hold, see the amended
theorem). -/
theorem C2_counterexample :
    (on_message [("Ghost", [99])] [(1, 7)] testEnv (testMsg "Ghost")).msgs = [] ∧
    Msg.notRecognizedMsg ∉ (on_message [("Ghost", [99])] [(1, 7)] testEnv (testMsg "Ghost")).msgs := by
  decide

/-- C2 amended: when the registry maps the replied identifier to exactly
one grant-id that no longer resolves on the platform, that id is
recorded under unknown-removed (`notFound`), the assignable set is
empty, no assignment call is issued, and processing completes without
crashing (terminal outcome, pending entry removed) — but the user
receives no message: the "not recognized" reply is produced only when
the identifier has no (or an empty) registry entry. -/
theorem C2_unknown_removed_silent (db : Registry) (pending : Pending) (env : Env)
    (m : MessageIn) (gid : Nat) (guild : Guild) (rid : Nat)
    (hb : m.authorBot = false) (hdm : m.isDM = true)
    (hp : lookupA m.authorId pending = some gid) (h0 : gid ≠ 0)
    (hg : env.getGuild gid = some guild) (hm : guild.hasMember m.authorId = true)
    (hdb : lookupA (strip m.content) db = some [rid])
    (hr : guild.getRole rid = none) :
    scanRoles guild [rid] = ⟨[], [rid], []⟩ ∧
    (on_message db pending env m).calls = [] ∧
    (on_message db pending env m).msgs = [] ∧
    (on_message db pending env m).outcome = .terminal none ∧
    lookupA m.authorId (on_message db pending env m).pending = none := by
  have hscan : scanRoles guild [rid] = ⟨[], [rid], []⟩ := by
    simp [scanRoles, hr]
  have hbody : replyBody db guild env (strip m.content) = ([], [], none) := by
    simp [replyBody, hdb, hscan]
  refine ⟨hscan, ?_, ?_, ?_, ?_⟩ <;>
    simp [on_message, hb, hdm, hp, h0, hg, hm, hbody, lookupA_eraseA_self]

/-- Witness for C2 (amended): the concrete Ghost run. -/
theorem C2_witness :
    scanRoles testGuild [99] = ⟨[], [99], []⟩ ∧
    (on_message [("Ghost", [99])] [(1, 7)] testEnv (testMsg "Ghost")).calls = [] ∧
    (on_message [("Ghost", [99])] [(1, 7)] testEnv (testMsg "Ghost")).msgs = [] ∧
    (on_message [("Ghost", [99])] [(1, 7)] testEnv (testMsg "Ghost")).outcome = .terminal none ∧
    lookupA 1 (on_message [("Ghost", [99])] [(1, 7)] testEnv (testMsg "Ghost")).pending = none :=
  C2_unknown_removed_silent [("Ghost", [99])] [(1, 7)] testEnv (testMsg "Ghost") 7 testGuild 99
    rfl rfl (by decide) (by decide) rfl (by decide) (by decide) rfl

/-- Membership in `adds` after the role loop: a resolving role is
collected exactly when its id was requested and its rank is strictly
below the bot's top rank. -/
theorem scanRoles_adds_mem (g : Guild) (ids : List Nat) (rid : Nat) (role : Role)
    (h : g.getRole rid = some role) :
    ((rid, role) ∈ (scanRoles g ids).adds) ↔ (rid ∈ ids ∧ role.rank < g.meTopRank) := by
  induction ids with
  | nil => simp [scanRoles]
  | cons a rest ih =>
    simp only [scanRoles]
    cases hga : g.getRole a with
    | none =>
      have hne : ¬ rid = a := fun he => by rw [← he, h] at hga; cases hga
      simp [ih, hne]
    | some r =>
      by_cases hra : a = rid
      · subst hra
        rw [h] at hga
        injection hga with hr'
        subst hr'
        by_cases hrank : role.rank < g.meTopRank
        · simp [hrank, ih]
        · simp [hrank, ih]
      · have hne : ¬ rid = a := fun he => hra he.symm
        by_cases hrank : r.rank < g.meTopRank
        · simp [hrank, ih, hne, hra]
        · simp [hrank, ih, hne]

/-- Membership in `blocked` after the role loop: a resolving role is
recorded as unassignable-by-hierarchy exactly when its id was requested
and its rank is not strictly below the bot's top rank. -/
theorem scanRoles_blocked_mem (g : Guild) (ids : List Nat) (rid : Nat) (role : Role)
    (h : g.getRole rid = some role) :
    ((rid, role) ∈ (scanRoles g ids).blocked) ↔
      (rid ∈ ids ∧ ¬ role.rank < g.meTopRank) := by
  induction ids with
  | nil => simp [scanRoles]
  | cons a rest ih =>
    simp only [scanRoles]
    cases hga : g.getRole a with
    | none =>
      have hne : ¬ rid = a := fun he => by rw [← he, h] at hga; cases hga
      simp [ih, hne]
    | some r =>
      by_cases hra : a = rid
      · subst hra
        rw [h] at hga
        injection hga with hr'
        subst hr'
        by_cases hrank : role.rank < g.meTopRank
        · simp [hrank, ih]
        · simp [hrank, ih]
      · have hne : ¬ rid = a := fun he => hra he.symm
        by_cases hrank : r.rank < g.meTopRank
        · simp [hrank, ih, hne]
        · simp [hrank, ih, hne, hra]

/-- C3: for a matched registry entry, every grant-id resolving to an
existing role is recorded as assignable exactly when the bot's top rank
is strictly above that role's rank, and as unassignable-by-hierarchy
otherwise; and when the assignable set is non-empty, exactly one batched
`add_roles` call is issued, carrying exactly the assignable ids and an
audit reason naming the identifier used. -/
theorem C3_hierarchy_partition (db : Registry) (pending : Pending) (env : Env)
    (m : MessageIn) (gid : Nat) (guild : Guild) (ids : List Nat)
    (hb : m.authorBot = false) (hdm : m.isDM = true)
    (hp : lookupA m.authorId pending = some gid) (h0 : gid ≠ 0)
    (hg : env.getGuild gid = some guild) (hm : guild.hasMember m.authorId = true)
    (hdb : lookupA (strip m.content) db = some ids) :
    (∀ rid role, guild.getRole rid = some role →
      (((rid, role) ∈ (scanRoles guild ids).adds) ↔
        (rid ∈ ids ∧ role.rank < guild.meTopRank)) ∧
      (((rid, role) ∈ (scanRoles guild ids).blocked) ↔
        (rid ∈ ids ∧ ¬ role.rank < guild.meTopRank))) ∧
    ((scanRoles guild ids).adds ≠ [] →
      (on_message db pending env m).calls =
        [((scanRoles guild ids).adds.map Prod.fst,
          "Verified via nickname: " ++ strip m.content)]) := by
  constructor
  · intro rid role hr
    exact ⟨scanRoles_adds_mem guild ids rid role hr,
      scanRoles_blocked_mem guild ids rid role hr⟩
  · intro hne
    have hids : ids ≠ [] := by
      intro he
      rw [he] at hne
      simp [scanRoles] at hne
    have hbody : (replyBody db guild env (strip m.content)).1 =
        [((scanRoles guild ids).adds.map Prod.fst,
          "Verified via nickname: " ++ strip m.content)] := by
      cases houtcome : env.addRolesOutcome <;>
        simp [replyBody, hdb, hids, hne, houtcome]
    simp [on_message, hb, hdm, hp, h0, hg, hm, hbody]

/-- Witness for C3: the Falcon example — role 10 senior to the bot is
blocked, role 20 junior is assignable, and the call carries exactly
`[20]`. -/
theorem C3_witness :
    ((10, roleSenior) ∈ (scanRoles testGuild [10, 20]).blocked ∧
      (20, roleJunior) ∈ (scanRoles testGuild [10, 20]).adds) ∧
    (on_message [("Falcon", [10, 20])] [(1, 7)] testEnv (testMsg "Falcon")).calls =
      [([20], "Verified via nickname: Falcon")] := by
  have h := C3_hierarchy_partition [("Falcon", [10, 20])] [(1, 7)] testEnv (testMsg "Falcon")
    7 testGuild [10, 20] rfl rfl (by decide) (by decide) rfl (by decide) (by decide)
  refine ⟨⟨?_, ?_⟩, ?_⟩
  · exact (h.1 10 roleSenior (by decide)).2.mpr (by decide)
  · exact (h.1 20 roleJunior (by decide)).1.mpr (by decide)
  · have hc := h.2 (by decide)
    rw [hc]
    decide

theorem coerceList_cons (r : JVal) (rest : List JVal) :
    coerceList (r :: rest) =
      match coerceElem r with
      | .error e => .error e
      | .ok none => coerceList rest
      | .ok (some n) =>
        match coerceList rest with
        | .error e => .error e
        | .ok ns => .ok (n :: ns) := rfl

theorem coerceEntries_cons (k : String) (v : JVal) (rest : List (String × JVal)) :
    coerceEntries ((k, v) :: rest) =
      match coerceRoles v with
      | .error e => .error e
      | .ok ids =>
        match coerceEntries rest with
        | .error e => .error e
        | .ok tail => .ok ((k, ids) :: tail) := rfl

/-- A per-key value that is not a list coerces to the empty list
without raising (the `else` branch at line 52). -/
theorem coerceRoles_nonlist {v : JVal} (h : ∀ rs, v ≠ JVal.jarr rs) :
    coerceRoles v = .ok [] := by
  cases v
  case jarr rs => exact absurd rfl (h rs)
  all_goals rfl

/-- A document none of whose values is a list loads to the registry
mapping each of its keys to the empty grant list. -/
theorem coerceEntries_nonlist {l : List (String × JVal)}
    (h : ∀ kv ∈ l, ∀ rs, kv.2 ≠ JVal.jarr rs) :
    coerceEntries l = .ok (l.map (fun kv => (kv.1, ([] : List Nat)))) := by
  induction l with
  | nil => rfl
  | cons hd rest ih =>
    obtain ⟨k', v'⟩ := hd
    rw [coerceEntries_cons, coerceRoles_nonlist (h (k', v') (List.mem_cons_self _ _)),
      ih (fun kv hkv rs => h kv (List.mem_cons_of_mem _ hkv) rs)]
    rfl

/-- When the coercion loop succeeds, each stored value's coercion
succeeded and the loaded registry maps its key to the result. -/
theorem coerceEntries_lookup {l : List (String × JVal)} {db : Registry}
    (h : coerceEntries l = .ok db) {k : String} {v : JVal}
    (hv : lookupA k l = some v) :
    ∃ ids, coerceRoles v = .ok ids ∧ lookupA k db = some ids := by
  induction l generalizing db with
  | nil => cases hv
  | cons hd rest ih =>
    obtain ⟨k', v'⟩ := hd
    rw [coerceEntries_cons] at h
    cases hcr : coerceRoles v' with
    | error e => simp [hcr] at h
    | ok ids' =>
      cases hce : coerceEntries rest with
      | error e => simp [hcr, hce] at h
      | ok tail =>
        simp only [hcr, hce] at h
        injection h with hdb
        subst hdb
        by_cases hk : k' = k
        · subst hk
          have hvv : v' = v := by simpa using hv
          subst hvv
          exact ⟨ids', hcr, by simp⟩
        · have hv' : lookupA k rest = some v := by simpa [hk] using hv
          obtain ⟨ids, h1, h2⟩ := ih hce hv'
          refine ⟨ids, h1, ?_⟩
          simpa [hk] using h2

/-- C4 counterexample: registry load can terminate the process, in two
ways the except clause (catching only `JSONDecodeError` and `IOError`)
does not handle. Content parsing to valid JSON that is not an object
(the array `[]`) raises `AttributeError` at `.items()`; and a list
element such as `"²"` passes the `str.isdigit` filter yet is rejected
by `int()`, raising `ValueError` — so the valid JSON object
`{"X": ["²"]}` crashes the load. -/
theorem C4_counterexample :
    load_database (.parsed (.jarr [])) = .error .attributeError ∧
    load_database (.parsed (.jobj [("X", .jarr [.jstr "²"])])) = .error .valueError :=
  ⟨rfl, rfl⟩

/-- C4 amended: registry load is fail-open for a missing backing file
(empty registry, not an error) and for unreadable or unparsable content
(logs and returns the empty registry); when the content parses to an
object, a per-key value that is not a list is coerced to an empty list
— whenever the load returns, lookup of such a key yields the empty
list, and a document with only such values always loads rather than
being rejected. But load can still terminate the process: content
parsing to non-object JSON raises an uncaught `AttributeError`, and a
list element accepted by `str.isdigit` but rejected by `int()` (a
non-decimal digit string such as `"²"`, or a numeral beyond the
4300-digit conversion limit) raises an uncaught `ValueError`. -/
theorem C4_load_fail_open :
    load_database .missing = .ok [] ∧
    load_database .unreadable = .ok [] ∧
    (∀ (fields : List (String × JVal)) (db : Registry),
      load_database (.parsed (.jobj fields)) = .ok db →
      ∀ k v, lookupA k (fields.foldl (fun d kv => insertA kv.1 kv.2 d) []) = some v →
        (∀ rs, v ≠ JVal.jarr rs) → lookupA k db = some []) ∧
    (∀ fields : List (String × JVal), (∀ kv ∈ fields, ∀ rs, kv.2 ≠ JVal.jarr rs) →
      load_database (.parsed (.jobj fields)) =
        .ok ((fields.foldl (fun d kv => insertA kv.1 kv.2 d) []).map
          (fun kv => (kv.1, ([] : List Nat))))) := by
  refine ⟨rfl, rfl, ?_, ?_⟩
  · intro fields db hload k v hv hnl
    have hload' : coerceEntries (fields.foldl (fun d kv => insertA kv.1 kv.2 d) []) =
        .ok db := hload
    obtain ⟨ids, h1, h2⟩ := coerceEntries_lookup hload' hv
    rw [coerceRoles_nonlist hnl] at h1
    injection h1 with h1'
    subst h1'
    exact h2
  · intro fields hnl
    have hd : ∀ kv ∈ fields.foldl (fun d kv => insertA kv.1 kv.2 d) [],
        ∀ rs, kv.2 ≠ JVal.jarr rs := by
      intro kv hkv rs
      rcases mem_foldl_insertA hkv with h' | h'
      · cases h'
      · exact hnl kv h' rs
    exact coerceEntries_nonlist hd

/-- Witness for C4 (amended): loading the document `{"X": "not-a-list"}`
does not fail and lookup of `"X"` yields the empty grant list — via
both the document-wide conjunct and the per-key conjunct. -/
theorem C4_witness :
    load_database (.parsed (.jobj [("X", .jstr "not-a-list")])) = .ok [("X", [])] ∧
    lookupA "X" [(("X" : String), ([] : List Nat))] = some [] := by
  constructor
  · have hnl : ∀ kv ∈ [(("X" : String), JVal.jstr "not-a-list")],
        ∀ rs, kv.2 ≠ JVal.jarr rs := by
      intro kv hkv rs
      rw [List.mem_singleton] at hkv
      rw [hkv]
      exact fun h => JVal.noConfusion h
    exact (C4_load_fail_open.2.2.2 [("X", .jstr "not-a-list")] hnl).trans rfl
  · exact C4_load_fail_open.2.2.1 [("X", .jstr "not-a-list")] [("X", [])] rfl
      "X" (.jstr "not-a-list") rfl (fun rs h => JVal.noConfusion h)

/-- C5: the admin registration operation, for an identifier non-empty
after trimming: if the identifier is absent it returns "added", creates
a singleton grant list and saves; if present without the grant-id it
returns "updated", appends the grant-id and saves; if the pair is
already present it returns "unchanged" with the registry untouched and
no persistence call. -/
theorem C5_upsert_outcomes (db : Registry) (nickname : String) (role_id : Nat)
    (hne : strip nickname ≠ "") :
    (lookupA (strip nickname) db = none →
      add_nickname db nickname role_id =
        (.added, db ++ [(strip nickname, [role_id])], true) ∧
      lookupA (strip nickname) (add_nickname db nickname role_id).2.1 = some [role_id]) ∧
    (∀ roles, lookupA (strip nickname) db = some roles → role_id ∉ roles →
      add_nickname db nickname role_id =
        (.updated, modifyA (strip nickname) (fun rs => rs ++ [role_id]) db, true) ∧
      lookupA (strip nickname) (add_nickname db nickname role_id).2.1 =
        some (roles ++ [role_id])) ∧
    (∀ roles, lookupA (strip nickname) db = some roles → role_id ∈ roles →
      add_nickname db nickname role_id = (.unchanged, db, false)) := by
  refine ⟨?_, ?_, ?_⟩
  · intro habs
    have heq : add_nickname db nickname role_id =
        (.added, db ++ [(strip nickname, [role_id])], true) := by
      simp [add_nickname, hne, habs]
    refine ⟨heq, ?_⟩
    rw [heq, lookupA_append_of_none _ habs]
    simp
  · intro roles hsome hnotin
    have heq : add_nickname db nickname role_id =
        (.updated, modifyA (strip nickname) (fun rs => rs ++ [role_id]) db, true) := by
      simp [add_nickname, hne, hsome, hnotin]
    refine ⟨heq, ?_⟩
    rw [heq]
    show lookupA (strip nickname) (modifyA (strip nickname) (fun rs => rs ++ [role_id]) db) =
      some (roles ++ [role_id])
    rw [lookupA_modifyA_self, hsome]
    rfl
  · intro roles hsome hin
    simp [add_nickname, hne, hsome, hin]

/-- Witness for C5: added, then updated with a second grant, then
unchanged on re-registering an existing pair. -/
theorem C5_witness :
    add_nickname [] "Falcon" 10 = (.added, [("Falcon", [10])], true) ∧
    add_nickname [("Falcon", [10])] "Falcon" 20 = (.updated, [("Falcon", [10, 20])], true) ∧
    add_nickname [("Falcon", [10, 20])] "Falcon" 10 =
      (.unchanged, [("Falcon", [10, 20])], false) := by
  refine ⟨?_, ?_, ?_⟩
  · exact (((C5_upsert_outcomes [] "Falcon" 10 (by decide)).1 (by decide)).1).trans (by decide)
  · exact (((C5_upsert_outcomes [("Falcon", [10])] "Falcon" 20 (by decide)).2.1
      [10] (by decide) (by decide)).1).trans (by decide)
  · exact ((C5_upsert_outcomes [("Falcon", [10, 20])] "Falcon" 10 (by decide)).2.2
      [10, 20] (by decide) (by decide)).trans (by decide)

/-- The registry invariant: identifiers are unique keys and each grant
list holds a grant-id at most once. -/
def regInv (db : Registry) : Prop :=
  (db.map Prod.fst).Nodup ∧ ∀ kv ∈ db, List.Nodup kv.2

/-- Registry states reachable in the system's own dynamics: empty at
first start, any sequence of admin registrations, and a restart loading
what `save_database` wrote. -/
inductive Reachable : Registry → Prop
  | empty : Reachable []
  | register (db : Registry) (n : String) (r : Nat) :
      Reachable db → Reachable (add_nickname db n r).2.1
  | reload (db db' : Registry) : Reachable db →
      load_database (.parsed (save_database db)) = .ok db' → Reachable db'

/-- Registration preserves the registry invariant. -/
theorem regInv_add_nickname (db : Registry) (n : String) (r : Nat) (h : regInv db) :
    regInv (add_nickname db n r).2.1 := by
  by_cases hne : strip n = ""
  · simpa [add_nickname, hne] using h
  · cases hl : lookupA (strip n) db with
    | none =>
      have hk : strip n ∉ db.map Prod.fst := lookupA_eq_none.mp hl
      have hres : (add_nickname db n r).2.1 = db ++ [(strip n, [r])] := by
        simp [add_nickname, hne, hl]
      rw [hres]
      constructor
      · have hmap : (db ++ [(strip n, [r])]).map Prod.fst =
            db.map Prod.fst ++ [strip n] := by simp
        rw [hmap]
        refine List.Nodup.append h.1 (List.nodup_singleton _) ?_
        intro a ha hb
        rw [List.mem_singleton] at hb
        exact hk (hb ▸ ha)
      · intro kv hkv
        rcases List.mem_append.mp hkv with h' | h'
        · exact h.2 kv h'
        · rw [List.mem_singleton] at h'
          rw [h']
          exact List.nodup_singleton _
    | some roles =>
      by_cases hin : r ∈ roles
      · simpa [add_nickname, hne, hl, hin] using h
      · have hres : (add_nickname db n r).2.1 =
            modifyA (strip n) (fun rs => rs ++ [r]) db := by
          simp [add_nickname, hne, hl, hin]
        rw [hres]
        constructor
        · rw [keys_modifyA]
          exact h.1
        · intro kv hkv
          rcases mem_modifyA hkv with h' | ⟨v, hv, hkv'⟩
          · exact h.2 kv h'
          · rw [hl] at hv
            injection hv with hv'
            subst hv'
            rw [hkv']
            have hroles : roles.Nodup := h.2 (strip n, roles) (lookupA_mem hl)
            refine List.Nodup.append hroles (List.nodup_singleton _) ?_
            intro a ha hb
            rw [List.mem_singleton] at hb
            exact hin (hb ▸ ha)

theorem coerceElem_ofNat (a : Nat) : coerceElem (.jnum (Int.ofNat a)) = .ok (some a) := by
  show (if 0 ≤ Int.ofNat a then Except.ok (some (Int.ofNat a).toNat) else .ok none) =
    .ok (some a)
  rw [if_pos (show 0 ≤ Int.ofNat a from Int.ofNat_nonneg a)]
  rfl

theorem coerceList_save (ids : List Nat) :
    coerceList (ids.map (fun r => JVal.jnum (Int.ofNat r))) = .ok ids := by
  induction ids with
  | nil => rfl
  | cons a rest ih =>
    rw [List.map_cons, coerceList_cons, coerceElem_ofNat, ih]

theorem coerceEntries_save (db : Registry) :
    coerceEntries (db.map (fun kv =>
      (kv.1, JVal.jarr (kv.2.map (fun r => JVal.jnum (Int.ofNat r)))))) = .ok db := by
  induction db with
  | nil => rfl
  | cons kv rest ih =>
    simp only [List.map_cons]
    rw [coerceEntries_cons,
      show coerceRoles (JVal.jarr (kv.2.map (fun r => JVal.jnum (Int.ofNat r)))) =
        .ok kv.2 from coerceList_save kv.2,
      ih]

/-- Reloading what `save_database` wrote reproduces the registry
(given unique keys, which every reachable registry has): the stored
values are arrays of non-negative integer numerals, on which the
element coercion is the identity and never raises. -/
theorem load_save_roundtrip (db : Registry) (h : (db.map Prod.fst).Nodup) :
    load_database (.parsed (save_database db)) = .ok db := by
  have hkeys : (((db.map (fun kv =>
      (kv.1, JVal.jarr (kv.2.map (fun r => JVal.jnum (Int.ofNat r)))))).map Prod.fst)).Nodup := by
    rw [List.map_map]
    exact h
  have hstep : load_database (.parsed (save_database db)) =
      coerceEntries ((db.map (fun kv =>
        (kv.1, JVal.jarr (kv.2.map (fun r => JVal.jnum (Int.ofNat r)))))).foldl
          (fun d kv => insertA kv.1 kv.2 d) []) := rfl
  rw [hstep, foldl_insertA_of_nodup _ [] (fun kv _ => rfl) hkeys, List.nil_append,
    coerceEntries_save]

/-- C6: every reachable registry state satisfies the invariant that a
grant-id appears at most once in any identifier's grant list (preserved
by registration and by a save/load roundtrip through the backing
store); and grant lists keep insertion order — registering
(identifier, grantA) then (identifier, grantB) on a fresh identifier
yields "added" then "updated", and lookup returns [grantA, grantB]. -/
theorem C6_registry_invariant :
    (∀ db, Reachable db → regInv db) ∧
    (∀ (db : Registry) (n : String) (a b : Nat), strip n ≠ "" →
      lookupA (strip n) db = none → a ≠ b →
      (add_nickname db n a).1 = .added ∧
      (add_nickname (add_nickname db n a).2.1 n b).1 = .updated ∧
      lookupA (strip n) (add_nickname (add_nickname db n a).2.1 n b).2.1 = some [a, b]) := by
  constructor
  · intro db hr
    induction hr with
    | empty => exact ⟨List.nodup_nil, by simp⟩
    | register db n r hdb ih => exact regInv_add_nickname db n r ih
    | reload db db' hdb hload ih =>
      rw [load_save_roundtrip db ih.1] at hload
      injection hload with he
      rw [← he]
      exact ih
  · intro db n a b hne habs hab
    have h1 : add_nickname db n a = (.added, db ++ [(strip n, [a])], true) := by
      simp [add_nickname, hne, habs]
    have hl1 : lookupA (strip n) (add_nickname db n a).2.1 = some [a] := by
      rw [h1]
      show lookupA (strip n) (db ++ [(strip n, [a])]) = some [a]
      rw [lookupA_append_of_none _ habs]
      simp
    have h2 : add_nickname (add_nickname db n a).2.1 n b =
        (.updated, modifyA (strip n) (fun rs => rs ++ [b]) (add_nickname db n a).2.1,
          true) := by
      generalize hdb1 : (add_nickname db n a).2.1 = db1 at hl1 ⊢
      simp [add_nickname, hne, hl1, Ne.symm hab]
    refine ⟨by rw [h1], by rw [h2], ?_⟩
    rw [h2]
    show lookupA (strip n)
      (modifyA (strip n) (fun rs => rs ++ [b]) (add_nickname db n a).2.1) = some [a, b]
    rw [lookupA_modifyA_self, hl1]
    rfl

/-- Witness for C6: a registry reached by one registration satisfies the
invariant, and two registrations under one identifier store both grants
in insertion order. -/
theorem C6_witness :
    regInv (add_nickname [] "Falcon" 10).2.1 ∧
    lookupA "Widow" (add_nickname (add_nickname [] " Widow " 3).2.1 " Widow " 4).2.1 =
      some [3, 4] := by
  constructor
  · exact C6_registry_invariant.1 _ (Reachable.register [] "Falcon" 10 Reachable.empty)
  · have h := (C6_registry_invariant.2 [] " Widow " 3 4 (by decide) rfl (by decide)).2.2
    rw [(by decide : strip " Widow " = "Widow")] at h
    exact h

/-- C8: registering an identifier that is empty after trimming is
rejected with a validation error before any mutation: the registry is
returned unchanged and no persistence call is made. -/
theorem C8_empty_identifier_rejected (db : Registry) (nickname : String) (role_id : Nat)
    (h : strip nickname = "") :
    add_nickname db nickname role_id = (.validationError, db, false) := by
  simp [add_nickname, h]

/-- Witness for C8: `register("  ", 5)` on a non-empty registry is a
validation error, mutates nothing and performs no save. -/
theorem C8_witness :
    add_nickname [("Falcon", [10])] "  " 5 = (.validationError, [("Falcon", [10])], false) :=
  C8_empty_identifier_rejected [("Falcon", [10])] "  " 5 (by decide)

/-- C7: the reply is normalized by trimming surrounding whitespace only
and the full trimmed string is matched by exact equality against
registry keys — the handler's behaviour depends on the content only
through its trimmed form; and an identifier whose registry entry is
absent or empty is classified NotFound with no assignment call, the
"not recognized" message, and the pending entry removed. -/
theorem C7_trim_exact_match_notfound :
    (∀ (db : Registry) (pending : Pending) (env : Env) (m₁ m₂ : MessageIn),
      m₁.authorBot = m₂.authorBot → m₁.authorId = m₂.authorId → m₁.isDM = m₂.isDM →
      strip m₁.content = strip m₂.content →
      on_message db pending env m₁ = on_message db pending env m₂) ∧
    (∀ (db : Registry) (pending : Pending) (env : Env) (m : MessageIn)
      (gid : Nat) (guild : Guild),
      m.authorBot = false → m.isDM = true →
      lookupA m.authorId pending = some gid → gid ≠ 0 →
      env.getGuild gid = some guild → guild.hasMember m.authorId = true →
      (lookupA (strip m.content) db = none ∨ lookupA (strip m.content) db = some []) →
      on_message db pending env m =
        ⟨eraseA m.authorId pending, [], [Msg.notRecognizedMsg],
          .terminal (some .NotFound)⟩) := by
  constructor
  · intro db pending env m₁ m₂ h1 h2 h3 h4
    obtain ⟨b1, i1, d1, c1⟩ := m₁
    obtain ⟨b2, i2, d2, c2⟩ := m₂
    simp only at h1 h2 h3 h4
    subst h1 h2 h3
    simp only [on_message, h4]
  · intro db pending env m gid guild hb hdm hp h0 hg hm hdb
    have hbody : replyBody db guild env (strip m.content) =
        ([], [Msg.notRecognizedMsg], some .NotFound) := by
      rcases hdb with hdb | hdb <;> simp [replyBody, hdb]
    simp [on_message, hb, hdm, hp, h0, hg, hm, hbody]

/-- Witness for C7: padding the reply with whitespace does not change
the result, and an unregistered nickname is processed to NotFound with
the pending entry removed. -/
theorem C7_witness :
    on_message [] [(1, 7)] testEnv (testMsg "  x  ") =
      on_message [] [(1, 7)] testEnv (testMsg "x") ∧
    on_message [] [(1, 7)] testEnv (testMsg "x") =
      ⟨eraseA 1 [(1, 7)], [], [Msg.notRecognizedMsg], .terminal (some .NotFound)⟩ :=
  ⟨C7_trim_exact_match_notfound.1 [] [(1, 7)] testEnv (testMsg "  x  ") (testMsg "x")
      rfl rfl rfl (by decide),
    C7_trim_exact_match_notfound.2 [] [(1, 7)] testEnv (testMsg "x") 7 testGuild
      rfl rfl (by decide) (by decide) rfl (by decide) (Or.inl rfl)⟩

/-- C9: a pending entry whose stored community-id is 0 (falsy in the
source's `if not guild_id` check) makes the reply handler return early
with the pending map untouched, no calls and no messages; this is the
only processed-reply path that leaves the pending entry in place; and
when every stored community-id is non-zero the branch is unreachable. -/
theorem C9_falsy_guild_id :
    (∀ (db : Registry) (pending : Pending) (env : Env) (m : MessageIn),
      m.authorBot = false → m.isDM = true → lookupA m.authorId pending = some 0 →
      on_message db pending env m = ⟨pending, [], [], .falsyGuildId⟩) ∧
    (∀ (db : Registry) (pending : Pending) (env : Env) (m : MessageIn),
      m.authorBot = false → m.isDM = true → (lookupA m.authorId pending).isSome →
      (on_message db pending env m).outcome ≠ .falsyGuildId →
      lookupA m.authorId (on_message db pending env m).pending = none) ∧
    (∀ (db : Registry) (pending : Pending) (env : Env) (m : MessageIn),
      (∀ u g, (u, g) ∈ pending → g ≠ 0) →
      (on_message db pending env m).outcome ≠ .falsyGuildId) := by
  refine ⟨?_, ?_, ?_⟩
  · intro db pending env m hb hdm hp
    simp [on_message, hb, hdm, hp]
  · intro db pending env m hb hdm hs hnf
    obtain ⟨gid, hp⟩ := Option.isSome_iff_exists.mp hs
    by_cases h0 : gid = 0
    · subst h0
      exact absurd (by simp [on_message, hb, hdm, hp]) hnf
    · cases hgg : env.getGuild gid with
      | none => simp [on_message, hb, hdm, hp, h0, hgg, lookupA_eraseA_self]
      | some guild =>
        by_cases hm : guild.hasMember m.authorId <;>
          simp [on_message, hb, hdm, hp, h0, hgg, hm, lookupA_eraseA_self]
  · intro db pending env m hall
    cases hb : m.authorBot with
    | true => simp [on_message, hb]
    | false =>
      cases hdm : m.isDM with
      | false => simp [on_message, hb, hdm]
      | true =>
        cases hp : lookupA m.authorId pending with
        | none => simp [on_message, hb, hdm, hp]
        | some gid =>
          have h0 : gid ≠ 0 := hall m.authorId gid (lookupA_mem hp)
          cases hgg : env.getGuild gid with
          | none => simp [on_message, hb, hdm, hp, h0, hgg]
          | some guild =>
            by_cases hm : guild.hasMember m.authorId <;>
              simp [on_message, hb, hdm, hp, h0, hgg, hm]

/-- Witness for C9: a stored community-id of 0 leaves the entry in
place; a processed reply with a sound entry removes it; and a pending
map with only non-zero community-ids never hits the falsy branch. -/
theorem C9_witness :
    on_message [] [(1, 0)] testEnv (testMsg "x") = ⟨[(1, 0)], [], [], .falsyGuildId⟩ ∧
    lookupA 1 (on_message [] [(1, 7)] testEnv (testMsg "x")).pending = none ∧
    (on_message [] [(1, 7)] testEnv (testMsg "x")).outcome ≠ .falsyGuildId :=
  ⟨C9_falsy_guild_id.1 [] [(1, 0)] testEnv (testMsg "x") rfl rfl (by decide),
    C9_falsy_guild_id.2.1 [] [(1, 7)] testEnv (testMsg "x") rfl rfl (by decide) (by decide),
    C9_falsy_guild_id.2.2 [] [(1, 7)] testEnv (testMsg "x")
      (fun u g h => by
        rw [List.mem_singleton] at h
        injection h with hu hg
        rw [hg]
        decide)⟩

/-- An environment in which no guild resolves. -/
def deadEnv : Env := ⟨fun _ => none, .success⟩

/-- C10: when the originating community cannot be resolved, or the
replying user is no longer a member of it, the handler deletes the
pending entry and returns — no registry lookup, no message to the user,
no grant assignment (empty calls and messages). -/
theorem C10_unresolvable_context (db : Registry) (pending : Pending) (env : Env)
    (m : MessageIn) (gid : Nat)
    (hb : m.authorBot = false) (hdm : m.isDM = true)
    (hp : lookupA m.authorId pending = some gid) (h0 : gid ≠ 0) :
    (env.getGuild gid = none →
      on_message db pending env m =
        ⟨eraseA m.authorId pending, [], [], .guildNotFound⟩) ∧
    (∀ guild, env.getGuild gid = some guild → guild.hasMember m.authorId = false →
      on_message db pending env m =
        ⟨eraseA m.authorId pending, [], [], .memberNotFound⟩) := by
  constructor
  · intro hg
    simp [on_message, hb, hdm, hp, h0, hg]
  · intro guild hg hm
    simp [on_message, hb, hdm, hp, h0, hg, hm]

/-- Witness for C10: a vanished guild, and a user who left the guild. -/
theorem C10_witness :
    on_message [] [(1, 7)] deadEnv (testMsg "x") =
      ⟨eraseA 1 [(1, 7)], [], [], .guildNotFound⟩ ∧
    on_message [] [(2, 7)] testEnv ⟨false, 2, true, "x"⟩ =
      ⟨eraseA 2 [(2, 7)], [], [], .memberNotFound⟩ :=
  ⟨(C10_unresolvable_context [] [(1, 7)] deadEnv (testMsg "x") 7
      rfl rfl (by decide) (by decide)).1 rfl,
    (C10_unresolvable_context [] [(2, 7)] testEnv ⟨false, 2, true, "x"⟩ 7
      rfl rfl (by decide) (by decide)).2 testGuild rfl rfl⟩

end Bot
